import Mathlib

/-!
# Verification of the promo-watcher scraper (`scraper/main.py`)

This file gives a shallow embedding, in Lean, of the data model and the
operations of the single-file scraper `scraper/main.py`, and proves (or
refutes) the specification claims about it.

Modelling conventions:
* Python dicts used as items (`{"key": ..., "url": ..., "title": ...}`) become
  the structure `RawItem` with `Option String` fields (`none` = absent key);
  Python truthiness of a string field (`None` and `""` are falsy) is `truthy`.
* Browser pages, the network and the DOM are external collaborators; an
  extractor's view of a page is embedded as plain data (lists of anchors,
  HTTP statuses, title/markup text). Compiled regular expressions passed as
  per-site allow/deny patterns are embedded as `String → Bool` predicates.
* File IO and the `json` library's text round trip are external; the state
  file is modelled at the JSON *value* level (`Option (Option Json)`:
  missing file / unreadable-or-malformed text / parsed value).
* Python's `sorted`, `str.strip`, `str.lower`, `str.replace`,
  `str.startswith` and substring tests are modelled by executable Lean
  functions defined below (ASCII case folding, Unicode whitespace trim).
* Slack webhook delivery is external; per-message success or failure is an
  oracle `deliver : String → Bool` recorded next to each notified key.
-/

/-! ## Character-list string primitives -/

/-- `listStarts pat s` is true iff `pat` is a prefix of `s`. -/
def listStarts : List Char → List Char → Bool
  | [], _ => true
  | _ :: _, [] => false
  | p :: ps, c :: cs => p == c && listStarts ps cs

/-- `listHasSub pat s` is true iff `pat` occurs as a contiguous sublist of `s`. -/
def listHasSub (pat : List Char) : List Char → Bool
  | [] => listStarts pat []
  | c :: rest => listStarts pat (c :: rest) || listHasSub pat rest

/-- Model of Python `s.startswith(p)`. -/
def strStarts (s p : String) : Bool := listStarts p.data s.data

/-- Model of Python `needle in hay` on strings (substring test). -/
def strContains (hay needle : String) : Bool := listHasSub needle.data hay.data

/-- Maximal leading run of ASCII digits. -/
def takeDigits : List Char → List Char
  | [] => []
  | c :: rest => if c.isDigit then c :: takeDigits rest else []

/-- Model of `re.search` for patterns of the shape `<literal>(\d+)` (the only
regex-with-group shape the scraper uses on URLs): scan `s` left to right for
the first position where the literal `pat` is followed by at least one digit,
and return the maximal digit run there (the capture group). -/
def findNumAfter (pat : List Char) : List Char → Option (List Char)
  | [] => none
  | c :: rest =>
    if listStarts pat (c :: rest) then
      let ds := takeDigits ((c :: rest).drop pat.length)
      if ds.isEmpty then findNumAfter pat rest else some ds
    else findNumAfter pat rest

/-- Digits to the natural number they denote (Python `int` on a digit string). -/
def digitsToNat (ds : List Char) : Nat :=
  ds.foldl (fun a c => a * 10 + (c.toNat - 48)) 0

/-- Model of Python `str.strip()`: remove leading and trailing whitespace. -/
def pyStrip (s : String) : String :=
  String.mk (((s.data.dropWhile Char.isWhitespace).reverse.dropWhile
    Char.isWhitespace).reverse)

/-- Model of Python `str.lower()` (ASCII case folding; the needles matched
against lowered text are ASCII or Korean, which is unaffected). -/
def pyLower (s : String) : String := String.mk (s.data.map Char.toLower)

/-! ## Configuration constants (main.py lines 47-51) -/

/-- main.py line 47: `INIT_SILENT = False`. -/
def INIT_SILENT : Bool := false

/-- main.py line 49. -/
def DEFAULT_MAX_ITEMS : Nat := 30

/-! ## Items and the deduper (`_dedup_keep_order`, main.py lines 96-105) -/

/-- A raw item dict as built by the extractors: `{"key","url","title"}`, any
field possibly absent. -/
structure RawItem where
  key : Option String
  url : Option String
  title : Option String
deriving DecidableEq

/-- Python truthiness of an optional string: `None` and `""` are falsy. -/
def truthy : Option String → Option String
  | none => none
  | some s => if s = "" then none else some s

/-- `it.get("key") or it.get("url") or it.get("title")` — the dedup key used
by `_dedup_keep_order`, with Python `or` falling through falsy values. -/
def dedupKey (it : RawItem) : Option String :=
  match truthy it.key with
  | some s => some s
  | none =>
    match truthy it.url with
    | some s => some s
    | none => truthy it.title

/-- `it.get("key")` as used by the run loop's new-item test (only the `key`
field, no `url`/`title` fallback). -/
def itemKey (it : RawItem) : Option String := truthy it.key

/-- The loop of `_dedup_keep_order` with its accumulated seen-key set `s`. -/
def dedupGo : List RawItem → List String → List RawItem
  | [], _ => []
  | it :: rest, s =>
    match dedupKey it with
    | none => dedupGo rest s
    | some k => if k ∈ s then dedupGo rest s else it :: dedupGo rest (k :: s)

/-- `_dedup_keep_order(items)` (main.py lines 96-105): keep the first item for
each dedup key, drop keyless items and later repeats. -/
def _dedup_keep_order (items : List RawItem) : List RawItem :=
  dedupGo items []

/-! ## URL utilities (`_abs_url`, `_same_host`; urllib externals modelled) -/

/-- Split an absolute http(s) URL into scheme and remainder after `"://"`.
Model of the scheme handling of `urllib.parse` restricted to the http(s)
URLs this program navigates. -/
def schemeSplit (u : String) : Option (String × String) :=
  if strStarts u "https://" then some ("https", u.drop 8)
  else if strStarts u "http://" then some ("http", u.drop 7)
  else none

/-- `u` is an absolute http(s) URL. -/
def hasHttpScheme (u : String) : Bool := (schemeSplit u).isSome

/-- `urlparse(u).netloc` for http(s) URLs; empty for scheme-less strings. -/
def hostOf (u : String) : String :=
  match schemeSplit u with
  | some p => String.mk (p.2.data.takeWhile (fun c => c != '/'))
  | none => ""

/-- main.py lines 154-158: compare the hosts of two URLs. -/
def _same_host (a b : String) : Bool := hostOf a == hostOf b

/-- The directory part of a URL path, up to and including the last `/`
(`"/"` when the path has none). -/
def dirname (path : String) : String :=
  let r := path.data.reverse.dropWhile (fun c => c != '/')
  if r.isEmpty then "/" else String.mk r.reverse

/-- Model of `urllib.parse.urljoin` restricted to the cases this program
exercises: empty href keeps the base, absolute http(s) hrefs win, `//`- and
`/`-prefixed hrefs are resolved against the base's scheme/host, and other
hrefs against the directory of the base's path. Dot segments, queries and
fragments are not treated specially, and non-http(s) bases fall back to the
href itself. -/
def urljoin (base href : String) : String :=
  if href = "" then base
  else if hasHttpScheme href then href
  else
    match schemeSplit base with
    | none => href
    | some p =>
      if strStarts href "//" then p.1 ++ ":" ++ href
      else
        let host := String.mk (p.2.data.takeWhile (fun c => c != '/'))
        if strStarts href "/" then p.1 ++ "://" ++ host ++ href
        else
          p.1 ++ "://" ++ host
            ++ dirname (String.mk (p.2.data.dropWhile (fun c => c != '/'))) ++ href

/-- main.py lines 145-151: empty href yields `""`, the href is stripped,
`javascript:` pseudo-URLs yield `""`, anything else is joined to the base. -/
def _abs_url (base href : String) : String :=
  if href = "" then ""
  else
    let h := pyStrip href
    if strStarts h "javascript:" then "" else urljoin base h

/-! ## The generic list-page anchor scraper (main.py lines 237-279) -/

/-- An `<a href>` element as the scraper sees it: its `href` attribute, its
inner text, and the `alt` attribute of its first image (`none` when there is
no image or reading it raises). -/
structure Anchor where
  href : String
  text : String
  alt : Option String
deriving DecidableEq

/-- Title derivation of `scrape_list_page_anchors` (main.py lines 263-269):
the stripped anchor text, falling back to the stripped image `alt`. -/
def anchorTitle (a : Anchor) : String :=
  let t := pyStrip a.text
  if t = "" then pyStrip (a.alt.getD "") else t

/-- The anchor loop of `scrape_list_page_anchors` (main.py lines 252-273):
skip unresolvable hrefs, apply allow/deny patterns, build items, stop once
`maxItems` are collected (`cnt` counts items already collected). -/
def collectAnchors (base : String) (incl excl : List (String → Bool))
    (maxItems : Nat) : List Anchor → Nat → List RawItem
  | [], _ => []
  | a :: rest, cnt =>
    let url := _abs_url base a.href
    if url = "" then collectAnchors base incl excl maxItems rest cnt
    else if !incl.isEmpty && !incl.any (fun p => p url) then
      collectAnchors base incl excl maxItems rest cnt
    else if !excl.isEmpty && excl.any (fun p => p url) then
      collectAnchors base incl excl maxItems rest cnt
    else
      let it : RawItem := ⟨some url, some url, some (anchorTitle a)⟩
      if maxItems ≤ cnt + 1 then [it]
      else it :: collectAnchors base incl excl maxItems rest (cnt + 1)

/-- `scrape_list_page_anchors` (main.py lines 237-279) on the anchors of the
loaded page: collect matching anchors, then dedup keeping order. -/
def scrape_list_page_anchors (base : String) (incl excl : List (String → Bool))
    (maxItems : Nat) (anchors : List Anchor) : List RawItem :=
  _dedup_keep_order (collectAnchors base incl excl maxItems anchors 0)

/-! ## `page_looks_like_error` and the Hapa Kristin extractor
(main.py lines 212-231, 380-496) -/

/-- The needle list of `page_looks_like_error` (main.py line 226). -/
def errNeedles : List String :=
  ["404", "not found", "페이지를 찾을 수", "존재하지", "error", "접근할 수"]

/-- main.py lines 212-231: the page counts as an error page when its
(lower-cased) title or markup contains one of the needles. -/
def page_looks_like_error (title html : String) : Bool :=
  errNeedles.any (fun n => strContains (pyLower title) n)
  || errNeedles.any (fun n => strContains (pyLower html) n)

/-- main.py lines 381-383: first `/events/<id>` number in a URL, `0` if none. -/
def _event_id_from_url (u : String) : Nat :=
  match findNumAfter "/events/".data u.data with
  | some ds => digitsToNat ds
  | none => 0

/-- What one `safe_goto` to a fixed detail URL observes: the HTTP status
(`none` when unavailable) and the page's title and markup afterwards. -/
structure FixedCheck where
  status : Option Nat
  title : String
  html : String
deriving DecidableEq

/-- The Hapa Kristin page as `scrape_hapakristin` observes it:
whether `_hapakristin_try_open_ongoing` succeeded (hover revealed the
submenu and `진행 중인 이벤트` was clicked), the `/events/<id>` URLs that
`_hapakristin_collect_header_event_ids` then collects from the header, and
what navigating to each of the two fixed detail URLs observes. -/
structure HapaPage where
  hoverOpened : Bool
  headerUrls : List String
  check6824 : FixedCheck
  check6724 : FixedCheck
deriving DecidableEq

/-- An event item `{"key": u, "url": u, "title": f"이벤트 {id}"}`. -/
def hapaItem (u : String) : RawItem :=
  ⟨some u, some u, some ("이벤트 " ++ toString (_event_id_from_url u))⟩

/-- main.py lines 474-484: a fixed URL is recorded as bad when its HTTP
status is `>= 400`, or the status is unavailable and the page content looks
like an error page. -/
def hapaBad (c : FixedCheck) : Bool :=
  match c.status with
  | some st => decide (400 ≤ st)
  | none => page_looks_like_error c.title c.html

/-- The two fixed detail URLs with their observed checks (main.py 467-470). -/
def hapaChecks (w : HapaPage) : List (String × FixedCheck) :=
  [("https://hapakristin.co.kr/events/6824", w.check6824),
   ("https://hapakristin.co.kr/events/6724", w.check6724)]

/-- `scrape_hapakristin` (main.py lines 452-496). Returns the item list and
whether a debug artifact was saved. Hover success with a non-empty header
collection returns those events with no debug; otherwise the two fixed URLs
are returned best-effort, with debug saved exactly when some fixed URL is
bad. -/
def scrape_hapakristin (w : HapaPage) : List RawItem × Bool :=
  if w.hoverOpened = true ∧ w.headerUrls ≠ [] then
    (w.headerUrls.map hapaItem, false)
  else
    let bad := (hapaChecks w).filter (fun p => hapaBad p.2)
    ((hapaChecks w).map (fun p => hapaItem p.1), !bad.isEmpty)

/-- Modelled from the spec: the spec describes the hover-menu site's
“page looks valid” heuristic as "combining title text, URL shape, and
presence of an application-root marker in the markup". The source has no
such check (its check is `hapaBad`: HTTP status and `page_looks_like_error`
needles only). The spec gives no formulas, so its words are rendered as:
title free of the error needles, URL of the site's `/events/<id>` shape,
and markup containing an application-root element marker. This definition
exists only to compare the spec's description with the source. -/
def specPageLooksValid (title url html : String) : Bool :=
  (!errNeedles.any (fun n => strContains (pyLower title) n))
  && strContains url "hapakristin.co.kr/events/"
  && (strContains html "id=\"app\"" || strContains html "id=\"root\"")

/-! ## The shop.winc.app extractor (main.py lines 557-591) -/

/-- main.py line 558. -/
def wincHome : String := "https://shop.winc.app/"

/-- The anchor loop of `scrape_shop_winc` (main.py lines 565-584): keep
same-host links matching `/event/(\d+)`, dedupe by URL (`seen`), build
synthetic `winc:event:<id>` keys, cap at `DEFAULT_MAX_ITEMS` (`cnt` counts
items already collected). -/
def wincCollect (pageUrl : String) : List Anchor → List String → Nat → List RawItem
  | [], _, _ => []
  | a :: rest, seen, cnt =>
    let url := _abs_url pageUrl a.href
    if url = "" then wincCollect pageUrl rest seen cnt
    else if !_same_host pageUrl url then wincCollect pageUrl rest seen cnt
    else
      match findNumAfter "/event/".data url.data with
      | none => wincCollect pageUrl rest seen cnt
      | some ds =>
        if url ∈ seen then wincCollect pageUrl rest seen cnt
        else
          let idStr := String.mk ds
          let t := pyStrip a.text
          let title := if t = "" then "event/" ++ idStr else t
          let it : RawItem := ⟨some ("winc:event:" ++ idStr), some url, some title⟩
          if DEFAULT_MAX_ITEMS ≤ cnt + 1 then [it]
          else it :: wincCollect pageUrl rest (url :: seen) (cnt + 1)

/-- Does this anchor pass the three filters of the winc loop (resolvable,
same host, `/event/<id>` pattern)? -/
def wincLinkKept (pageUrl : String) (a : Anchor) : Bool :=
  let url := _abs_url pageUrl a.href
  url != "" && _same_host pageUrl url && (findNumAfter "/event/".data url.data).isSome

/-- `scrape_shop_winc` (main.py lines 557-591): collect and dedup event
links; when none were found, save a debug artifact (second component `true`)
and return the single synthetic home item. -/
def scrape_shop_winc (pageUrl : String) (anchors : List Anchor) : List RawItem × Bool :=
  let results := _dedup_keep_order (wincCollect pageUrl anchors [] 0)
  if results.isEmpty then
    ([⟨some "winc:home", some wincHome, some "이벤트(홈)"⟩], true)
  else (results, false)

/-! ## The state file as JSON values (main.py lines 82-93) -/

/-- JSON values, as returned by `json.loads`. -/
inductive Json where
  | null
  | bool (b : Bool)
  | num (n : Int)
  | str (s : String)
  | arr (elems : List Json)
  | obj (fields : List (String × Json))

/-- Python truthiness of a parsed JSON value (`json.loads(...) or {}`). -/
def Json.truthy : Json → Bool
  | .null => false
  | .bool b => b
  | .num n => n != 0
  | .str s => s != ""
  | .arr xs => !xs.isEmpty
  | .obj fs => !fs.isEmpty

/-- Is this JSON value an object (a Python dict)? -/
def Json.isObj : Json → Bool
  | .obj _ => true
  | _ => false

/-- `load_state` (main.py lines 82-88) over the state file's observable
content: `none` = `STATE_PATH` missing, `some none` = reading or JSON-parsing
the file raised, `some (some j)` = the file parsed to the value `j`.
A missing or unparsable file yields `{}`; a parsed falsy value is replaced
by `{}`; any other parsed value is returned unchanged. -/
def load_state : Option (Option Json) → Json
  | none => .obj []
  | some none => .obj []
  | some (some j) => if j.truthy then j else .obj []

/-- The start of `main` (main.py lines 725-727): `if "seen" not in state:
state["seen"] = {}`. On a dict this inserts the key if missing; on any
non-dict value the subscript assignment (or, when the membership test
happens to succeed, the later `state["seen"].get` call) raises `TypeError`,
modelled as `none`. -/
def mainInit : Json → Option Json
  | .obj fs =>
      some (.obj (if fs.any (fun p => p.1 == "seen") then fs
                  else fs ++ [("seen", .obj [])]))
  | _ => none

/-- Extract a JSON string. -/
def jsonStr? : Json → Option String
  | .str s => some s
  | _ => none

/-- `save_state` (main.py lines 91-93) at the JSON value level: the in-memory
state `{"seen": {site: [keys...]}}` as the JSON value `json.dumps` writes.
The text serialization and file write are the external `json` library and
filesystem. -/
def save_state (seen : List (String × List String)) : Json :=
  .obj [("seen", .obj (seen.map (fun p => (p.1, .arr (p.2.map .str)))))]

/-- Read the `"seen"` table back out of a loaded state value, the way `main`
accesses it (`state["seen"]`, then per-site lists of key strings). -/
def jsonToSeen : Json → List (String × List String)
  | .obj fs =>
    match fs.find? (fun p => p.1 == "seen") with
    | some p =>
      match p.2 with
      | .obj sm =>
        sm.map (fun q =>
          (q.1, match q.2 with
                | .arr xs => xs.filterMap jsonStr?
                | _ => []))
      | _ => []
    | none => []
  | _ => []

/-! ## The run loop (main.py lines 724-845) -/

/-- The in-memory `state["seen"]` dict, as a total map with `[]` default
(matching `state["seen"].get(site_key, [])`). -/
abbrev Seen := String → List String

/-- The empty seen-state. -/
def seenEmpty : Seen := fun _ => []

/-- Dict assignment `state["seen"][site] = v`. -/
def seenSet (st : Seen) (site : String) (v : List String) : Seen :=
  fun x => if x = site then v else st x

/-- Python `set.add` on a set represented as a duplicate-free list. -/
def setAdd (s : List String) (k : String) : List String :=
  if k ∈ s then s else s ++ [k]

/-- Add each key in turn (the per-item `seen_set.add(...)` loop). -/
def addKeys (s : List String) (ks : List String) : List String :=
  ks.foldl setAdd s

/-- Code-point-wise lexicographic comparison on character lists. -/
def listLeb : List Char → List Char → Bool
  | [], _ => true
  | _ :: _, [] => false
  | c :: cs, d :: ds =>
    if c = d then listLeb cs ds else decide (c.toNat < d.toNat)

/-- Code-point-wise lexicographic comparison (Python string `<=`). -/
def strLeb (a b : String) : Bool := listLeb a.data b.data

/-- Insert into a sorted list (helper for `pySorted`). -/
def insertSorted (x : String) : List String → List String
  | [] => [x]
  | y :: ys => if strLeb x y then x :: y :: ys else y :: insertSorted x ys

/-- Model of Python `sorted(...)` on a set of strings: produce an ascending
list of the elements (only the element set matters to the claims proved
here). -/
def pySorted (l : List String) : List String := l.foldr insertSorted []

/-- main.py line 818: `[it for it in items if it.get("key") and it["key"]
not in seen_set]`. -/
def new_items (seen : List String) (items : List RawItem) : List RawItem :=
  items.filter (fun it =>
    match itemKey it with
    | some k => !(decide (k ∈ seen))
    | none => false)

/-- The per-site state update of `main` (main.py lines 806-834), after the
site's items have been extracted and deduped. Returns the updated seen-state,
the keys classified as new (`new_items`), and the production notifications
attempted: one `(key, delivered?)` per notified item, in order, where
`deliver` is the webhook-outcome oracle (`post_slack_prod` failures are
caught and only logged, main.py lines 827-830). In the silent-init branch all
truthy item keys are committed with no notifications; otherwise the first 10
new items are notified and exactly their keys committed. -/
def siteBody (initSilent : Bool) (deliver : String → Bool) (st : Seen)
    (site : String) (items : List RawItem) :
    Seen × List String × List (String × Bool) :=
  let seen0 := (st site).dedup
  if initSilent = true ∧ seen0 = [] ∧ items ≠ [] then
    (seenSet st site (pySorted (addKeys seen0 (items.filterMap itemKey))), [], [])
  else
    let nitems := new_items seen0 items
    if nitems = [] then (st, [], [])
    else
      let ntKeys := (nitems.take 10).filterMap itemKey
      (seenSet st site (pySorted (addKeys seen0 ntKeys)),
       nitems.filterMap itemKey,
       ntKeys.map (fun k => (k, deliver k)))

/-- What one site contributed to a run: its catalog key, how many items were
recorded after the per-site try/except and dedup, which keys were classified
new, the production notifications attempted, and the debug artifacts the run
loop itself wrote for it. -/
structure SiteRecord where
  site : String
  itemCount : Nat
  newKeys : List String
  notified : List (String × Bool)
  debugFiles : List String
deriving DecidableEq

/-- main.py lines 757-771: the extractor result under the per-site
try/except — an exception yields zero items, a normal return is deduped. -/
def runSiteItems : Except String (List RawItem) → List RawItem
  | .error _ => []
  | .ok its => _dedup_keep_order its

/-- Model of `site_key.replace(" ", "_")` (main.py line 770): replace each
space by an underscore. -/
def sanitizeSiteKey (site : String) : String :=
  String.mk (site.data.map (fun c => if c = ' ' then '_' else c))

/-- main.py lines 766-770: on an extractor exception the run loop saves a
debug artifact with filename prefix `error_` + the site key with spaces
replaced by underscores. -/
def runSiteDebug (site : String) : Except String (List RawItem) → List String
  | .error _ => ["error_" ++ sanitizeSiteKey site]
  | .ok _ => []

/-- The run loop of `main` (main.py lines 741-834) over the site catalog,
each site given with its extractor's outcome (normal item list or raised
exception). Folds `siteBody` through the catalog in order and records one
`SiteRecord` per site. -/
def runAll (i : Bool) (d : String → Bool) :
    List (String × Except String (List RawItem)) → Seen → Seen × List SiteRecord
  | [], st => (st, [])
  | (site, res) :: rest, st =>
    let items := runSiteItems res
    let out := siteBody i d st site items
    let next := runAll i d rest out.1
    (next.1, ⟨site, items.length, out.2.1, out.2.2, runSiteDebug site res⟩ :: next.2)

/-- Several consecutive runs of the run loop over the same persisted state
(state saved at the end of each run and loaded at the start of the next;
the save/load round trip is the identity on the mapping, see the claim on
`save_state`/`jsonToSeen`). -/
def runMany (i : Bool) (d : String → Bool) :
    List (List (String × Except String (List RawItem))) → Seen → Seen × List SiteRecord
  | [], st => (st, [])
  | r :: rs, st =>
    let o := runAll i d r st
    let rest := runMany i d rs o.1
    (rest.1, o.2 ++ rest.2)

/-- The site catalog (main.py lines 705-718): catalog key and display name.
The extractor functions are invoked through the run loop and are modelled by
each run's per-site outcomes. -/
def SITES : List (String × String) :=
  [("O-Lens", "오렌즈"), ("Hapa Kristin", "하파크리스틴"), ("Lens-me", "렌즈미"),
   ("MYFiPN", "마이핍앤"), ("CHUU Lens", "츄렌즈"), ("Gemhour", "젬아워"),
   ("i-sha", "아이샤"), ("shop.winc.app", "윙크"), ("ann365", "앤365"),
   ("lenbling", "렌블링"), ("yourly", "유얼리"), ("i-dol", "아이돌렌즈")]

/-- Collapse one of each pair of adjacent whitespace characters, normalizing
kept whitespace to a space (helper for `collapseWs`). -/
def squeezeWs : List Char → List Char
  | [] => []
  | [c] => [if c.isWhitespace then ' ' else c]
  | c :: d :: rest =>
    if c.isWhitespace && d.isWhitespace then squeezeWs (d :: rest)
    else (if c.isWhitespace then ' ' else c) :: squeezeWs (d :: rest)

/-- Modelled from the spec: "Collapses whitespace in text" — every run of
whitespace replaced by a single space, leading and trailing whitespace
removed. The source only strips (`str.strip`); this definition exists only
to compare the spec's description with the source. -/
def collapseWs (s : String) : String := pyStrip (String.mk (squeezeWs s.data))

/-! # Theorems

## String primitives -/

theorem listStarts_refl (l : List Char) : listStarts l l = true := by
  induction l with
  | nil => rfl
  | cons c cs ih => simp [listStarts, ih]

theorem listStarts_iff_append (p s : List Char) :
    listStarts p s = true ↔ ∃ t, s = p ++ t := by
  induction p generalizing s with
  | nil => simp [listStarts]
  | cons x xs ih =>
    cases s with
    | nil => simp [listStarts]
    | cons c cs =>
      simp only [listStarts, Bool.and_eq_true, beq_iff_eq, ih, List.cons_append,
        List.cons.injEq]
      constructor
      · rintro ⟨rfl, t, rfl⟩
        exact ⟨t, rfl, rfl⟩
      · rintro ⟨t, rfl, rfl⟩
        exact ⟨rfl, t, rfl⟩

theorem listStarts_append_self (p t : List Char) :
    listStarts p (p ++ t) = true :=
  (listStarts_iff_append p (p ++ t)).mpr ⟨t, rfl⟩

theorem listHasSub_append_self (a p : List Char) :
    listHasSub p (a ++ p) = true := by
  induction a with
  | nil =>
    cases p with
    | nil => rfl
    | cons c cs =>
      simp only [List.nil_append, listHasSub, Bool.or_eq_true]
      exact Or.inl (listStarts_refl _)
  | cons x xs ih =>
    simp only [List.cons_append, listHasSub, Bool.or_eq_true]
    exact Or.inr ih

theorem strContains_append_self (a b : String) :
    strContains (a ++ b) b = true := by
  unfold strContains
  rw [String.data_append]
  exact listHasSub_append_self a.data b.data

/-! ## The deduper -/

theorem dedupGo_cons_none {it : RawItem} (rest : List RawItem) (s : List String)
    (h : dedupKey it = none) : dedupGo (it :: rest) s = dedupGo rest s := by
  simp [dedupGo, h]

theorem dedupGo_cons_mem {it : RawItem} {k : String} (rest : List RawItem)
    {s : List String} (h : dedupKey it = some k) (hk : k ∈ s) :
    dedupGo (it :: rest) s = dedupGo rest s := by
  simp [dedupGo, h, hk]

theorem dedupGo_cons_new {it : RawItem} {k : String} (rest : List RawItem)
    {s : List String} (h : dedupKey it = some k) (hk : k ∉ s) :
    dedupGo (it :: rest) s = it :: dedupGo rest (k :: s) := by
  simp [dedupGo, h, hk]

theorem dedupGo_sublist (l : List RawItem) (s : List String) :
    (dedupGo l s).Sublist l := by
  induction l generalizing s with
  | nil => simp [dedupGo]
  | cons it rest ih =>
    cases h : dedupKey it with
    | none =>
      rw [dedupGo_cons_none rest s h]
      exact (ih s).cons it
    | some k =>
      by_cases hk : k ∈ s
      · rw [dedupGo_cons_mem rest h hk]
        exact (ih s).cons it
      · rw [dedupGo_cons_new rest h hk]
        exact (ih (k :: s)).cons₂ it

theorem dedupGo_mem_key (l : List RawItem) (s : List String) (it : RawItem)
    (h : it ∈ dedupGo l s) : ∃ k, dedupKey it = some k ∧ k ∉ s := by
  induction l generalizing s with
  | nil => simp [dedupGo] at h
  | cons hd rest ih =>
    cases hh : dedupKey hd with
    | none =>
      rw [dedupGo_cons_none rest s hh] at h
      exact ih s h
    | some k =>
      by_cases hk : k ∈ s
      · rw [dedupGo_cons_mem rest hh hk] at h
        exact ih s h
      · rw [dedupGo_cons_new rest hh hk] at h
        rcases List.mem_cons.mp h with rfl | hmem
        · exact ⟨k, hh, hk⟩
        · obtain ⟨k', hk', hks⟩ := ih (k :: s) hmem
          exact ⟨k', hk', fun hc => hks (List.mem_cons_of_mem _ hc)⟩

theorem dedupGo_keys_nodup (l : List RawItem) (s : List String) :
    ((dedupGo l s).filterMap dedupKey).Nodup
      ∧ ∀ k ∈ (dedupGo l s).filterMap dedupKey, k ∉ s := by
  induction l generalizing s with
  | nil => simp [dedupGo]
  | cons hd rest ih =>
    cases hh : dedupKey hd with
    | none =>
      rw [dedupGo_cons_none rest s hh]
      exact ih s
    | some k =>
      by_cases hk : k ∈ s
      · rw [dedupGo_cons_mem rest hh hk]
        exact ih s
      · rw [dedupGo_cons_new rest hh hk]
        rw [List.filterMap_cons_some hh]
        obtain ⟨ihn, ihs⟩ := ih (k :: s)
        refine ⟨List.nodup_cons.mpr ⟨fun hc => ?_, ihn⟩, ?_⟩
        · exact ihs k hc (List.mem_cons_self k s)
        · intro k' hk'
          rcases List.mem_cons.mp hk' with rfl | hmem
          · exact hk
          · exact fun hc => ihs k' hmem (List.mem_cons_of_mem _ hc)

theorem dedupGo_keys_complete (l : List RawItem) (s : List String) (k : String)
    (h : k ∈ l.filterMap dedupKey) (hs : k ∉ s) :
    k ∈ (dedupGo l s).filterMap dedupKey := by
  induction l generalizing s with
  | nil => simp at h
  | cons hd rest ih =>
    cases hh : dedupKey hd with
    | none =>
      rw [dedupGo_cons_none rest s hh]
      rw [List.filterMap_cons_none hh] at h
      exact ih s h hs
    | some k' =>
      rw [List.filterMap_cons_some hh] at h
      by_cases hk : k' ∈ s
      · rw [dedupGo_cons_mem rest hh hk]
        rcases List.mem_cons.mp h with rfl | hmem
        · exact absurd hk hs
        · exact ih s hmem hs
      · rw [dedupGo_cons_new rest hh hk]
        rw [List.filterMap_cons_some hh]
        rcases List.mem_cons.mp h with rfl | hmem
        · exact List.mem_cons_self k _
        · by_cases hkk : k = k'
          · subst hkk
            exact List.mem_cons_self k _
          · exact List.mem_cons_of_mem _
              (ih (k' :: s) hmem (by simp [hkk, hs]))

theorem dedupGo_first_occurrence (l : List RawItem) (s : List String)
    (it : RawItem) (k : String) (hmem : it ∈ dedupGo l s)
    (hkey : dedupKey it = some k) :
    l.find? (fun j => dedupKey j == some k) = some it := by
  induction l generalizing s with
  | nil => simp [dedupGo] at hmem
  | cons hd rest ih =>
    cases hh : dedupKey hd with
    | none =>
      rw [dedupGo_cons_none rest s hh] at hmem
      rw [List.find?_cons_of_neg _ (by simp [hh])]
      exact ih s hmem
    | some k' =>
      by_cases hk : k' ∈ s
      · rw [dedupGo_cons_mem rest hh hk] at hmem
        obtain ⟨k'', hk'', hks⟩ := dedupGo_mem_key rest s it hmem
        have hkk : k'' = k := Option.some.inj (hk''.symm.trans hkey)
        subst hkk
        have hne : k' ≠ k'' := fun hc => hks (hc ▸ hk)
        rw [List.find?_cons_of_neg _ (by simp [hh, hne])]
        exact ih s hmem
      · rw [dedupGo_cons_new rest hh hk] at hmem
        rcases List.mem_cons.mp hmem with rfl | hmem'
        · have hkk : k' = k := Option.some.inj (hh.symm.trans hkey)
          subst hkk
          rw [List.find?_cons_of_pos _ (by simp [hh])]
        · obtain ⟨k'', hk'', hks⟩ := dedupGo_mem_key rest (k' :: s) it hmem'
          have hkk : k'' = k := Option.some.inj (hk''.symm.trans hkey)
          subst hkk
          have hne : k' ≠ k'' := fun hc => hks (hc ▸ List.mem_cons_self k' s)
          rw [List.find?_cons_of_neg _ (by simp [hh, hne])]
          exact ih (k' :: s) hmem'

/-- C2. For every list of raw items, `_dedup_keep_order` returns a list in
which each dedup key occurs exactly once (the kept items' keys are distinct,
and a key appears in the output iff some input item carried it), keeping for
each key the first input item that carried it, and preserving the relative
order of first occurrences (the output is a sublist of the input); all later
items sharing an already-seen key are dropped. -/
theorem dedup_keeps_first_occurrences (items : List RawItem) :
    (_dedup_keep_order items).Sublist items
      ∧ ((_dedup_keep_order items).filterMap dedupKey).Nodup
      ∧ (∀ k, k ∈ (_dedup_keep_order items).filterMap dedupKey
            ↔ k ∈ items.filterMap dedupKey)
      ∧ (∀ it k, it ∈ _dedup_keep_order items → dedupKey it = some k →
            items.find? (fun j => dedupKey j == some k) = some it) := by
  refine ⟨dedupGo_sublist items [], (dedupGo_keys_nodup items []).1, ?_, ?_⟩
  · intro k
    constructor
    · intro h
      obtain ⟨it, hit, hk⟩ := List.mem_filterMap.mp h
      exact List.mem_filterMap.mpr ⟨it, (dedupGo_sublist items []).subset hit, hk⟩
    · intro h
      exact dedupGo_keys_complete items [] k h (by simp)
  · intro it k hmem hkey
    exact dedupGo_first_occurrence items [] it k hmem hkey

/-- Witness for C2 at a concrete input: three items, the third repeating the
first's key; the output keeps the first occurrence and its position. -/
theorem dedup_keeps_first_occurrences_witness :
    (_dedup_keep_order
        [⟨some "a", none, none⟩, ⟨some "b", none, none⟩,
         ⟨some "a", some "u", none⟩]).Sublist
        [⟨some "a", none, none⟩, ⟨some "b", none, none⟩,
         ⟨some "a", some "u", none⟩]
      ∧ List.find? (fun j => dedupKey j == some "a")
          [⟨some "a", none, none⟩, ⟨some "b", none, none⟩,
           ⟨some "a", some "u", none⟩] = some ⟨some "a", none, none⟩ := by
  refine ⟨(dedup_keeps_first_occurrences _).1, ?_⟩
  exact (dedup_keeps_first_occurrences
      [⟨some "a", none, none⟩, ⟨some "b", none, none⟩,
       ⟨some "a", some "u", none⟩]).2.2.2
    ⟨some "a", none, none⟩ "a" (by decide) (by decide)

/-! ## Seen-state containers -/

theorem mem_setAdd {s : List String} {k a : String} :
    a ∈ setAdd s k ↔ a ∈ s ∨ a = k := by
  unfold setAdd
  by_cases h : k ∈ s
  · simp only [if_pos h]
    constructor
    · exact Or.inl
    · rintro (ha | rfl)
      · exact ha
      · exact h
  · simp [if_neg h]

theorem mem_addKeys {s ks : List String} {a : String} :
    a ∈ addKeys s ks ↔ a ∈ s ∨ a ∈ ks := by
  induction ks generalizing s with
  | nil => simp [addKeys]
  | cons x xs ih =>
    have : addKeys s (x :: xs) = addKeys (setAdd s x) xs := rfl
    rw [this, ih, mem_setAdd]
    simp only [List.mem_cons]
    tauto

theorem mem_insertSorted {x a : String} (l : List String) :
    a ∈ insertSorted x l ↔ a = x ∨ a ∈ l := by
  induction l with
  | nil => simp [insertSorted]
  | cons y ys ih =>
    unfold insertSorted
    split_ifs with h
    · simp
    · simp only [List.mem_cons, ih]
      tauto

theorem mem_pySorted (l : List String) (a : String) :
    a ∈ pySorted l ↔ a ∈ l := by
  induction l with
  | nil => simp [pySorted]
  | cons x xs ih =>
    have : pySorted (x :: xs) = insertSorted x (pySorted xs) := rfl
    rw [this, mem_insertSorted, ih]
    simp [List.mem_cons, eq_comm]

theorem seenSet_apply_self (st : Seen) (site : String) (v : List String) :
    seenSet st site v site = v := by
  simp [seenSet]

theorem seenSet_apply_other (st : Seen) (site x : String) (v : List String)
    (h : x ≠ site) : seenSet st site v x = st x := by
  simp [seenSet, h]

/-! ## `new_items` and `siteBody` -/

theorem mem_new_items {seen : List String} {items : List RawItem} {it : RawItem} :
    it ∈ new_items seen items
      ↔ it ∈ items ∧ ∃ k, itemKey it = some k ∧ k ∉ seen := by
  unfold new_items
  rw [List.mem_filter]
  constructor
  · rintro ⟨hmem, hp⟩
    refine ⟨hmem, ?_⟩
    cases hik : itemKey it with
    | none => rw [hik] at hp; simp at hp
    | some k =>
      rw [hik] at hp
      simp only [Bool.not_eq_eq_eq_not, Bool.not_true, decide_eq_false_iff_not] at hp
      exact ⟨k, rfl, hp⟩
  · rintro ⟨hmem, k, hik, hk⟩
    refine ⟨hmem, ?_⟩
    rw [hik]
    simpa using hk

theorem new_items_keys_isSome {seen : List String} {items : List RawItem} :
    ∀ it ∈ new_items seen items, (itemKey it).isSome = true := by
  intro it hit
  obtain ⟨-, k, hk, -⟩ := mem_new_items.mp hit
  simp [hk]

/-- `filterMap` and `take` commute on a list whose elements all produce a
value. -/
theorem filterMap_take_of_isSome {l : List RawItem} (n : Nat)
    (h : ∀ it ∈ l, (itemKey it).isSome = true) :
    (l.take n).filterMap itemKey = (l.filterMap itemKey).take n := by
  induction l generalizing n with
  | nil => simp
  | cons hd rest ih =>
    obtain ⟨k, hk⟩ := Option.isSome_iff_exists.mp (h hd (List.mem_cons_self hd rest))
    cases n with
    | zero => simp
    | succ m =>
      simp only [List.take_succ_cons, List.filterMap_cons_some hk]
      rw [ih m (fun it hit => h it (List.mem_cons_of_mem hd hit))]

theorem filterMap_itemKey_eq_dedupKey {l : List RawItem}
    (h : ∀ it ∈ l, (itemKey it).isSome = true) :
    l.filterMap itemKey = l.filterMap dedupKey := by
  induction l with
  | nil => simp
  | cons hd rest ih =>
    obtain ⟨k, hk⟩ := Option.isSome_iff_exists.mp (h hd (List.mem_cons_self hd rest))
    have hd' : dedupKey hd = some k := by
      unfold dedupKey
      unfold itemKey at hk
      rw [hk]
    rw [List.filterMap_cons_some hk, List.filterMap_cons_some hd',
      ih (fun it hit => h it (List.mem_cons_of_mem hd hit))]

theorem siteBody_silent_eq (i : Bool) (d : String → Bool) (st : Seen)
    (site : String) (items : List RawItem) (h1 : i = true)
    (h2 : (st site).dedup = []) (h3 : items ≠ []) :
    siteBody i d st site items =
      (seenSet st site
        (pySorted (addKeys ((st site).dedup) (items.filterMap itemKey))), [], []) := by
  simp only [siteBody]
  rw [if_pos ⟨h1, h2, h3⟩]

theorem siteBody_else_empty (i : Bool) (d : String → Bool) (st : Seen)
    (site : String) (items : List RawItem)
    (h : ¬(i = true ∧ (st site).dedup = [] ∧ items ≠ []))
    (h2 : new_items ((st site).dedup) items = []) :
    siteBody i d st site items = (st, [], []) := by
  simp only [siteBody]
  rw [if_neg h, if_pos h2]

theorem siteBody_else_new (i : Bool) (d : String → Bool) (st : Seen)
    (site : String) (items : List RawItem)
    (h : ¬(i = true ∧ (st site).dedup = [] ∧ items ≠ []))
    (h2 : new_items ((st site).dedup) items ≠ []) :
    siteBody i d st site items =
      (seenSet st site (pySorted (addKeys ((st site).dedup)
          (((new_items ((st site).dedup) items).take 10).filterMap itemKey))),
       (new_items ((st site).dedup) items).filterMap itemKey,
       (((new_items ((st site).dedup) items).take 10).filterMap itemKey).map
         (fun k => (k, d k))) := by
  simp only [siteBody]
  rw [if_neg h, if_neg h2]

theorem siteBody_mono (i : Bool) (d : String → Bool) (st : Seen) (site : String)
    (items : List RawItem) (x k : String) (h : k ∈ st x) :
    k ∈ (siteBody i d st site items).1 x := by
  by_cases hc : i = true ∧ (st site).dedup = [] ∧ items ≠ []
  · rw [siteBody_silent_eq i d st site items hc.1 hc.2.1 hc.2.2]
    dsimp only
    by_cases hx : x = site
    · subst hx
      exfalso
      have hnil : st x = [] := (List.dedup_eq_nil _).mp hc.2.1
      rw [hnil] at h
      exact List.not_mem_nil k h
    · rw [seenSet_apply_other st site x _ hx]
      exact h
  · by_cases h2 : new_items ((st site).dedup) items = []
    · rw [siteBody_else_empty i d st site items hc h2]
      exact h
    · rw [siteBody_else_new i d st site items hc h2]
      dsimp only
      by_cases hx : x = site
      · subst hx
        rw [seenSet_apply_self, mem_pySorted, mem_addKeys]
        exact Or.inl (List.mem_dedup.mpr h)
      · rw [seenSet_apply_other st site x _ hx]
        exact h

theorem siteBody_newKeys_fresh (i : Bool) (d : String → Bool) (st : Seen)
    (site : String) (items : List RawItem) (k : String)
    (h : k ∈ (siteBody i d st site items).2.1) : k ∉ st site := by
  by_cases hc : i = true ∧ (st site).dedup = [] ∧ items ≠ []
  · rw [siteBody_silent_eq i d st site items hc.1 hc.2.1 hc.2.2] at h
    exact absurd h (List.not_mem_nil k)
  · by_cases h2 : new_items ((st site).dedup) items = []
    · rw [siteBody_else_empty i d st site items hc h2] at h
      exact absurd h (List.not_mem_nil k)
    · rw [siteBody_else_new i d st site items hc h2] at h
      obtain ⟨it, hit, hk⟩ := List.mem_filterMap.mp h
      obtain ⟨-, k', hk', hkseen⟩ := mem_new_items.mp hit
      have : k' = k := Option.some.inj (hk'.symm.trans hk)
      subst this
      exact fun hmem => hkseen (List.mem_dedup.mpr hmem)

theorem runAll_mono (i : Bool) (d : String → Bool)
    (l : List (String × Except String (List RawItem))) (st : Seen)
    (x k : String) (h : k ∈ st x) : k ∈ (runAll i d l st).1 x := by
  induction l generalizing st with
  | nil => simpa [runAll] using h
  | cons hd rest ih =>
    obtain ⟨site, res⟩ := hd
    simp only [runAll]
    exact ih _ (siteBody_mono i d st site (runSiteItems res) x k h)

theorem runAll_no_reclassify (i : Bool) (d : String → Bool)
    (l : List (String × Except String (List RawItem))) (st : Seen)
    (site k : String) (h : k ∈ st site) :
    ∀ r ∈ (runAll i d l st).2, r.site = site → k ∉ r.newKeys := by
  induction l generalizing st with
  | nil =>
    intro r hr
    simp [runAll] at hr
  | cons hd rest ih =>
    obtain ⟨s0, res⟩ := hd
    intro r hr hsite
    simp only [runAll] at hr
    rcases List.mem_cons.mp hr with rfl | hmem
    · intro hk
      simp only [] at hsite hk
      subst hsite
      exact siteBody_newKeys_fresh i d st _ (runSiteItems res) k hk h
    · exact ih _ (siteBody_mono i d st s0 (runSiteItems res) site k h) r hmem hsite

theorem runMany_mono (i : Bool) (d : String → Bool)
    (runs : List (List (String × Except String (List RawItem)))) (st : Seen)
    (x k : String) (h : k ∈ st x) : k ∈ (runMany i d runs st).1 x := by
  induction runs generalizing st with
  | nil => simpa [runMany] using h
  | cons r rs ih =>
    simp only [runMany]
    exact ih _ (runAll_mono i d r st x k h)

/-- C1. For every site and every sequence of runs of the run loop, a key in
the site's seen-state stays in it after any number of further runs (no run
removes keys), and no run's record for that site ever classifies it as new
again. -/
theorem seen_keys_only_grow (i : Bool) (d : String → Bool)
    (runs : List (List (String × Except String (List RawItem))))
    (st : Seen) (site k : String) (h : k ∈ st site) :
    k ∈ (runMany i d runs st).1 site
      ∧ ∀ r ∈ (runMany i d runs st).2, r.site = site → k ∉ r.newKeys := by
  induction runs generalizing st with
  | nil =>
    refine ⟨by simpa [runMany] using h, ?_⟩
    intro r hr
    simp [runMany] at hr
  | cons r rs ih =>
    simp only [runMany]
    refine ⟨(ih _ (runAll_mono i d r st site k h)).1, ?_⟩
    intro rec hrec hsite
    rcases List.mem_append.mp hrec with hmem | hmem
    · exact runAll_no_reclassify i d r st site k h rec hmem hsite
    · exact (ih _ (runAll_mono i d r st site k h)).2 rec hmem hsite

/-- Concrete seen-state for the C1 witness: site `"A"` has already seen
key `"k"`. -/
def demoState : Seen := fun x => if x = "A" then ["k"] else []

/-- Concrete runs for the C1 witness: one run where site `"A"` extracts the
already-seen item `"k"` and a fresh item `"m"`. -/
def demoRuns : List (List (String × Except String (List RawItem))) :=
  [[("A", Except.ok [⟨some "k", none, none⟩, ⟨some "m", none, none⟩])]]

/-- Witness for C1 at a concrete input. -/
theorem seen_keys_only_grow_witness :
    "k" ∈ demoState "A"
      ∧ "k" ∈ (runMany false (fun _ => true) demoRuns demoState).1 "A" :=
  ⟨by decide,
   (seen_keys_only_grow false (fun _ => true) demoRuns demoState "A" "k"
      (by decide)).1⟩

/-- C3. For every site run not in silent-init mode (`INIT_SILENT` is `False`
in this revision, main.py line 47): the production channel gets exactly one
message per newly discovered item, capped at the first 10 new items in
extraction order (the notified keys are exactly the first 10 new keys, in
order); exactly the keys of the notified items are added to the site's seen
set; and the committed state and new-item classification are the same for
every webhook-outcome oracle — a key is committed even when the POST for its
message fails. -/
theorem prod_notified_per_new_item (deliver deliver' : String → Bool)
    (st : Seen) (site : String) (raw : List RawItem) :
    ((siteBody false deliver st site (_dedup_keep_order raw)).2.2.map Prod.fst
        = ((siteBody false deliver st site (_dedup_keep_order raw)).2.1).take 10)
      ∧ (∀ k, k ∈ (siteBody false deliver st site (_dedup_keep_order raw)).1 site
            ↔ k ∈ st site
              ∨ k ∈ (siteBody false deliver st site (_dedup_keep_order raw)).2.2.map
                  Prod.fst)
      ∧ (siteBody false deliver st site (_dedup_keep_order raw)).1
          = (siteBody false deliver' st site (_dedup_keep_order raw)).1
      ∧ (siteBody false deliver st site (_dedup_keep_order raw)).2.1
          = (siteBody false deliver' st site (_dedup_keep_order raw)).2.1
      ∧ (siteBody false deliver st site (_dedup_keep_order raw)).2.2.map Prod.fst
          = (siteBody false deliver' st site (_dedup_keep_order raw)).2.2.map
              Prod.fst := by
  have hns : ¬(false = true ∧ (st site).dedup = [] ∧ _dedup_keep_order raw ≠ []) := by
    simp
  by_cases h2 : new_items ((st site).dedup) (_dedup_keep_order raw) = []
  · rw [siteBody_else_empty false deliver st site _ hns h2,
      siteBody_else_empty false deliver' st site _ hns h2]
    simp
  · rw [siteBody_else_new false deliver st site _ hns h2,
      siteBody_else_new false deliver' st site _ hns h2]
    dsimp only
    have hfst : ∀ (f : String → Bool) (ks : List String),
        (ks.map (fun k => (k, f k))).map Prod.fst = ks := by
      intro f ks
      induction ks with
      | nil => rfl
      | cons x xs ih => simp only [List.map_cons, ih]
    have htake :
        ((new_items ((st site).dedup) (_dedup_keep_order raw)).take 10).filterMap
            itemKey
          = ((new_items ((st site).dedup) (_dedup_keep_order raw)).filterMap
              itemKey).take 10 :=
      filterMap_take_of_isSome 10 new_items_keys_isSome
    refine ⟨by rw [hfst, htake], ?_, rfl, rfl, by rw [hfst, hfst]⟩
    intro k
    rw [hfst, seenSet_apply_self, mem_pySorted, mem_addKeys, List.mem_dedup]

/-- C4. For every site whose seen set is empty and whose extractor produced a
non-empty item list (all extractor-built items carry a truthy `key`), a
single run with silent-init enabled notifies nothing for that site and
classifies nothing as new, and commits a seen set whose keys are exactly the
extracted item keys. -/
theorem silent_init_seeds_seen_state (d : String → Bool) (st : Seen)
    (site : String) (raw : List RawItem)
    (hempty : st site = []) (hne : raw ≠ [])
    (hkeys : ∀ it ∈ raw, (itemKey it).isSome = true) :
    (∀ r ∈ (runAll true d [(site, Except.ok raw)] st).2,
        r.notified = [] ∧ r.newKeys = [])
      ∧ ∀ k, k ∈ (runAll true d [(site, Except.ok raw)] st).1 site
          ↔ k ∈ raw.filterMap itemKey := by
  have hded : (st site).dedup = [] := by rw [hempty]; rfl
  have hdedup_ne : _dedup_keep_order raw ≠ [] := by
    obtain ⟨hd, tl, rfl⟩ := List.exists_cons_of_ne_nil hne
    obtain ⟨k, hk⟩ := Option.isSome_iff_exists.mp
      (hkeys hd (List.mem_cons_self hd tl))
    have hdk : dedupKey hd = some k := by
      unfold dedupKey
      unfold itemKey at hk
      rw [hk]
    unfold _dedup_keep_order
    rw [dedupGo_cons_new tl hdk (List.not_mem_nil k)]
    exact List.cons_ne_nil hd _
  have hbody := siteBody_silent_eq true d st site (_dedup_keep_order raw) rfl
    hded hdedup_ne
  have hkeys' : ∀ it ∈ _dedup_keep_order raw, (itemKey it).isSome = true :=
    fun it hit => hkeys it ((dedupGo_sublist raw []).subset hit)
  constructor
  · intro r hr
    simp only [runAll, runSiteItems] at hr
    rcases List.mem_cons.mp hr with rfl | hmem
    · rw [hbody]
      exact ⟨rfl, rfl⟩
    · exact absurd hmem (List.not_mem_nil r)
  · intro k
    simp only [runAll, runSiteItems]
    rw [hbody]
    dsimp only
    rw [seenSet_apply_self, mem_pySorted, mem_addKeys, hded]
    simp only [List.not_mem_nil, false_or]
    rw [filterMap_itemKey_eq_dedupKey hkeys', filterMap_itemKey_eq_dedupKey hkeys]
    constructor
    · intro hk
      obtain ⟨it, hit, hk'⟩ := List.mem_filterMap.mp hk
      exact List.mem_filterMap.mpr ⟨it, (dedupGo_sublist raw []).subset hit, hk'⟩
    · intro hk
      exact dedupGo_keys_complete raw [] k hk (List.not_mem_nil k)

/-- Witness for C4 at a concrete input: one fresh site with one keyed item;
its key ends up in the committed seen set. -/
theorem silent_init_seeds_seen_state_witness :
    seenEmpty "S" = []
      ∧ "a" ∈ (runAll true (fun _ => true)
          [("S", Except.ok [⟨some "a", some "u", none⟩])] seenEmpty).1 "S" :=
  ⟨rfl,
   ((silent_init_seeds_seen_state (fun _ => true) seenEmpty "S"
        [⟨some "a", some "u", none⟩] rfl (by decide) (by decide)).2 "a").mpr
      (by decide)⟩

/-! ## Run-loop isolation of extractor failures -/

theorem siteBody_nil_items (i : Bool) (d : String → Bool) (st : Seen)
    (site : String) : siteBody i d st site [] = (st, [], []) :=
  siteBody_else_empty i d st site [] (by simp) rfl

theorem runAll_append (i : Bool) (d : String → Bool)
    (l1 l2 : List (String × Except String (List RawItem))) (st : Seen) :
    runAll i d (l1 ++ l2) st
      = ((runAll i d l2 (runAll i d l1 st).1).1,
         (runAll i d l1 st).2 ++ (runAll i d l2 (runAll i d l1 st).1).2) := by
  induction l1 generalizing st with
  | nil => simp [runAll]
  | cons hd rest ih =>
    obtain ⟨site, res⟩ := hd
    simp only [List.cons_append, runAll]
    simp only [List.append_eq]
    rw [ih]

/-- C5 (amended). For every run, an extractor exception at any catalog
position is fully contained: the run loop records zero items for that site,
writes exactly one debug artifact whose filename prefix contains the site
identifier with spaces replaced by underscores (`error_<site-key>`), leaves
the seen-state untouched for that site, and the sites before and after it
are processed exactly as they would have been — the whole run is the same as
if that extractor had returned no items, so no exception aborts the run or
affects any other site. -/
theorem extractor_exception_isolated (i : Bool) (d : String → Bool)
    (pre post : List (String × Except String (List RawItem)))
    (site e : String) (st : Seen) :
    runAll i d (pre ++ (site, Except.error e) :: post) st
      = ((runAll i d post (runAll i d pre st).1).1,
         (runAll i d pre st).2
           ++ ⟨site, 0, [], [], ["error_" ++ sanitizeSiteKey site]⟩
             :: (runAll i d post (runAll i d pre st).1).2)
      ∧ strContains ("error_" ++ sanitizeSiteKey site) (sanitizeSiteKey site)
          = true := by
  constructor
  · rw [runAll_append]
    simp only [runAll, runSiteItems, runSiteDebug]
    rw [siteBody_nil_items]
    rfl
  · exact strContains_append_self "error_" (sanitizeSiteKey site)

/-- C5 counterexample to the claim as stated: for the catalog site
`"Hapa Kristin"` the debug artifact written after an extractor exception has
filename prefix `"error_Hapa_Kristin"`, which does **not** contain the site
identifier `"Hapa Kristin"` (its space was replaced by an underscore). -/
theorem extractor_exception_prefix_counterexample :
    ("Hapa Kristin", "하파크리스틴") ∈ SITES
      ∧ (runAll false (fun _ => true)
            [("Hapa Kristin", Except.error "PlaywrightTimeout")] seenEmpty).2
          = [⟨"Hapa Kristin", 0, [], [], ["error_Hapa_Kristin"]⟩]
      ∧ strContains "error_Hapa_Kristin" "Hapa Kristin" = false := by
  refine ⟨by decide, ?_, by decide⟩
  decide

/-! ## The state store (`load_state`, `save_state`) -/

/-- C6 (amended). `load_state` itself never fails: a missing file, an
unreadable file, or malformed JSON text yields the empty mapping, and a
parsed falsy value is replaced by the empty mapping; but a parsed truthy
value is returned unchanged, whatever its shape — so the result is a
site-to-keys mapping only when the file actually contained an object, and
`main`'s subsequent dict accesses fail (`TypeError`) on every truthy
non-object value. -/
theorem load_state_permissive (j : Json) :
    load_state none = Json.obj []
      ∧ load_state (some none) = Json.obj []
      ∧ (j.truthy = true → load_state (some (some j)) = j)
      ∧ (j.truthy = false → load_state (some (some j)) = Json.obj [])
      ∧ (j.truthy = true → j.isObj = false →
          mainInit (load_state (some (some j))) = none)
      ∧ (j.isObj = true → (mainInit j).isSome = true) := by
  refine ⟨rfl, rfl, ?_, ?_, ?_, ?_⟩
  · intro ht
    simp [load_state, ht]
  · intro ht
    simp [load_state, ht]
  · intro ht hobj
    simp only [load_state, ht, if_true]
    cases j with
    | obj fs => simp [Json.isObj] at hobj
    | null => rfl
    | bool b => rfl
    | num n => rfl
    | str s => rfl
    | arr xs => rfl
  · intro hobj
    cases j with
    | obj fs => simp [mainInit]
    | null => simp [Json.isObj] at hobj
    | bool b => simp [Json.isObj] at hobj
    | num n => simp [Json.isObj] at hobj
    | str s => simp [Json.isObj] at hobj
    | arr xs => simp [Json.isObj] at hobj

/-- Witness for C6 (amended) at concrete values: a well-formed state file
parses to itself; an empty-object file is falsy and also yields `{}`. -/
theorem load_state_permissive_witness :
    (Json.obj [("seen", Json.obj [])]).truthy = true
      ∧ load_state (some (some (Json.obj [("seen", Json.obj [])])))
          = Json.obj [("seen", Json.obj [])]
      ∧ (Json.obj []).truthy = false
      ∧ load_state (some (some (Json.obj []))) = Json.obj [] :=
  ⟨rfl, (load_state_permissive (Json.obj [("seen", Json.obj [])])).2.2.1 rfl,
   rfl, (load_state_permissive (Json.obj [])).2.2.2.1 rfl⟩

/-- C6 counterexample to the claim as stated: a state file containing the
valid JSON array `["x"]` is returned by `load_state` as-is — not a mapping
from site identifiers to key sets — and `main`'s state initialization then
fails on it with a `TypeError` instead of the run proceeding. -/
theorem load_state_counterexample :
    load_state (some (some (Json.arr [Json.str "x"]))) = Json.arr [Json.str "x"]
      ∧ (Json.arr [Json.str "x"]).isObj = false
      ∧ mainInit (load_state (some (some (Json.arr [Json.str "x"])))) = none :=
  ⟨rfl, rfl, rfl⟩

/-- C7. Saving a seen-state mapping and loading it back yields the original
mapping exactly (in particular each site's key set is unchanged as a set):
`save_state` writes `{"seen": {site: [keys...]}}`, the written value is
truthy so `load_state` returns it unchanged, and reading the `"seen"` table
back recovers every site's key list. -/
theorem save_load_round_trip (seen : List (String × List String)) :
    jsonToSeen (load_state (some (some (save_state seen)))) = seen := by
  have hload : load_state (some (some (save_state seen))) = save_state seen := by
    simp [load_state, save_state, Json.truthy]
  rw [hload]
  simp only [save_state, jsonToSeen]
  rw [List.find?_cons_of_pos _ (by simp)]
  simp only [List.map_map]
  have : ∀ p : String × List String,
      (p.1, (p.2.map Json.str).filterMap jsonStr?) = p := by
    intro p
    have : (p.2.map Json.str).filterMap jsonStr? = p.2 := by
      induction p.2 with
      | nil => rfl
      | cons x xs ih => simp [jsonStr?, ih]
    rw [this]
  calc seen.map (fun p => (p.1, (p.2.map Json.str).filterMap jsonStr?))
      = seen.map id := List.map_congr_left (fun p _ => this p)
    _ = seen := List.map_id seen

/-! ## The Hapa Kristin extractor's failure modes -/

/-- C8 (amended). For the hover-menu site's extractor: a hover/submenu
interaction that fails to reveal the submenu (or reveals no event links) is
a normal fallback path — no debug artifact comes from it and the extractor
still returns a non-empty best-effort item list (the two fixed detail URLs);
a debug artifact is produced exactly when one of the two fixed detail URLs
fails the source's check — HTTP status `>= 400`, or status unavailable and
the page's title or markup matching an error-page needle
(`page_looks_like_error`). The check consults only status, title text and
markup needles, not URL shape or an application-root marker. -/
theorem hapakristin_failure_modes (w : HapaPage) :
    (scrape_hapakristin w).1 ≠ []
      ∧ (w.hoverOpened = true ∧ w.headerUrls ≠ [] →
          (scrape_hapakristin w).1 = w.headerUrls.map hapaItem
            ∧ (scrape_hapakristin w).2 = false)
      ∧ (¬(w.hoverOpened = true ∧ w.headerUrls ≠ []) →
          (scrape_hapakristin w).1
              = [hapaItem "https://hapakristin.co.kr/events/6824",
                 hapaItem "https://hapakristin.co.kr/events/6724"]
            ∧ ((scrape_hapakristin w).2 = true
                ↔ hapaBad w.check6824 = true ∨ hapaBad w.check6724 = true)) := by
  by_cases hc : w.hoverOpened = true ∧ w.headerUrls ≠ []
  · have he : scrape_hapakristin w = (w.headerUrls.map hapaItem, false) := by
      simp only [scrape_hapakristin, if_pos hc]
    refine ⟨?_, fun _ => ?_, fun hn => absurd hc hn⟩
    · rw [he]
      intro hmap
      exact hc.2 (List.map_eq_nil_iff.mp hmap)
    · rw [he]
      exact ⟨rfl, rfl⟩
  · have he : scrape_hapakristin w =
        ((hapaChecks w).map (fun p => hapaItem p.1),
         !((hapaChecks w).filter (fun p => hapaBad p.2)).isEmpty) := by
      simp only [scrape_hapakristin, if_neg hc]
    refine ⟨?_, fun h => absurd h hc, fun _ => ⟨?_, ?_⟩⟩
    · rw [he]
      simp [hapaChecks]
    · rw [he]
      simp [hapaChecks]
    · rw [he]
      cases h1 : hapaBad w.check6824 <;> cases h2 : hapaBad w.check6724 <;>
        simp [hapaChecks, List.filter_cons, h1, h2]

/-- Witness for C8 (amended) at a concrete page: hover fails, both fixed
URLs respond with status 200 — the fallback items are returned and no debug
artifact is saved. -/
theorem hapakristin_failure_modes_witness :
    (scrape_hapakristin
          ⟨false, [], ⟨some 200, "", ""⟩, ⟨some 200, "", ""⟩⟩).1
        = [hapaItem "https://hapakristin.co.kr/events/6824",
           hapaItem "https://hapakristin.co.kr/events/6724"]
      ∧ (scrape_hapakristin
          ⟨false, [], ⟨some 200, "", ""⟩, ⟨some 200, "", ""⟩⟩).2 = false := by
  have h := (hapakristin_failure_modes
      ⟨false, [], ⟨some 200, "", ""⟩, ⟨some 200, "", ""⟩⟩).2.2 (by decide)
  refine ⟨h.1, ?_⟩
  have hiff := h.2
  cases hb : (scrape_hapakristin
      ⟨false, [], ⟨some 200, "", ""⟩, ⟨some 200, "", ""⟩⟩).2
  · rfl
  · rcases hiff.mp hb with hbad | hbad <;> exact absurd hbad (by decide)

/-- C8 counterexample to the claim as stated: with hover failing and the
first fixed URL answering HTTP 404 while its page *passes* every rendering
of the spec's "title text + URL shape + application-root marker" validity
check (clean title, the known-good `/events/<id>` URL, an application root
`id="app"` in the markup, no error needles in the content), the source still
saves a debug artifact — the debug trigger is the HTTP status, not the
spec's described check. -/
theorem hapakristin_validity_check_counterexample :
    (scrape_hapakristin
          ⟨false, [],
           ⟨some 404, "진행 중인 이벤트", "<div id=\"app\">이벤트</div>"⟩,
           ⟨some 200, "진행 중인 이벤트", "<div id=\"app\">이벤트</div>"⟩⟩).2
        = true
      ∧ specPageLooksValid "진행 중인 이벤트"
          "https://hapakristin.co.kr/events/6824"
          "<div id=\"app\">이벤트</div>" = true
      ∧ specPageLooksValid "진행 중인 이벤트"
          "https://hapakristin.co.kr/events/6724"
          "<div id=\"app\">이벤트</div>" = true
      ∧ page_looks_like_error "진행 중인 이벤트"
          "<div id=\"app\">이벤트</div>" = false := by
  refine ⟨?_, ?_, ?_, ?_⟩ <;> decide

/-! ## The item normalizer and URL resolution -/

theorem listStarts_of_eq_append {p t : List Char} (s : List Char)
    (h : s = p ++ t) : listStarts p s = true :=
  h ▸ listStarts_append_self p t

theorem hasHttpScheme_iff (u : String) :
    hasHttpScheme u = true
      ↔ strStarts u "https://" = true ∨ strStarts u "http://" = true := by
  unfold hasHttpScheme schemeSplit
  by_cases h1 : strStarts u "https://" = true
  · simp [h1]
  · by_cases h2 : strStarts u "http://" = true <;> simp [h1, h2]

theorem schemeSplit_cases (u : String) (p : String × String)
    (h : schemeSplit u = some p) : p.1 = "https" ∨ p.1 = "http" := by
  unfold schemeSplit at h
  by_cases h1 : strStarts u "https://" = true
  · rw [if_pos h1] at h
    obtain rfl := Option.some.inj h
    exact Or.inl rfl
  · rw [if_neg h1] at h
    by_cases h2 : strStarts u "http://" = true
    · rw [if_pos h2] at h
      obtain rfl := Option.some.inj h
      exact Or.inr rfl
    · rw [if_neg h2] at h
      exact absurd h (by simp)

theorem hasHttpScheme_append (sch rest : String)
    (hs : sch = "https" ∨ sch = "http") :
    hasHttpScheme (sch ++ "://" ++ rest) = true := by
  rw [hasHttpScheme_iff]
  rcases hs with rfl | rfl
  · left
    unfold strStarts
    rw [String.data_append]
    exact listStarts_append_self "https://".data rest.data
  · right
    unfold strStarts
    rw [String.data_append]
    exact listStarts_append_self "http://".data rest.data

theorem urljoin_keeps_scheme (base h : String) (hb : hasHttpScheme base = true) :
    hasHttpScheme (urljoin base h) = true := by
  by_cases h0 : h = ""
  · subst h0
    rw [show urljoin base "" = base from by simp [urljoin]]
    exact hb
  · by_cases habs : hasHttpScheme h = true
    · rw [show urljoin base h = h from by simp [urljoin, h0, habs]]
      exact habs
    · obtain ⟨p, hp⟩ : ∃ p, schemeSplit base = some p :=
        Option.isSome_iff_exists.mp hb
      have hsch := schemeSplit_cases base p hp
      by_cases hss : strStarts h "//" = true
      · rw [show urljoin base h = p.1 ++ ":" ++ h from by
          simp [urljoin, h0, habs, hp, hss]]
        obtain ⟨t, ht⟩ := (listStarts_iff_append "//".data h.data).mp hss
        rw [hasHttpScheme_iff]
        rcases hsch with h1 | h1 <;> rw [h1]
        · left
          unfold strStarts
          rw [String.data_append, ht, ← List.append_assoc]
          exact listStarts_append_self "https://".data t
        · right
          unfold strStarts
          rw [String.data_append, ht, ← List.append_assoc]
          exact listStarts_append_self "http://".data t
      · by_cases hsl : strStarts h "/" = true
        · rw [show urljoin base h
              = p.1 ++ "://"
                  ++ (String.mk (p.2.data.takeWhile (fun c => c != '/')) ++ h)
            from by
              simp [urljoin, h0, habs, hp, hss, hsl, String.append_assoc]]
          exact hasHttpScheme_append p.1 _ hsch
        · rw [show urljoin base h
              = p.1 ++ "://"
                  ++ (String.mk (p.2.data.takeWhile (fun c => c != '/'))
                      ++ (dirname (String.mk (p.2.data.dropWhile (fun c => c != '/')))
                          ++ h))
            from by
              simp [urljoin, h0, habs, hp, hss, hsl, String.append_assoc]]
          exact hasHttpScheme_append p.1 _ hsch

theorem collectAnchors_sound (base : String) (incl excl : List (String → Bool))
    (maxItems : Nat) (anchors : List Anchor) :
    ∀ cnt it, it ∈ collectAnchors base incl excl maxItems anchors cnt →
      ∃ b ∈ anchors, _abs_url base b.href ≠ ""
        ∧ it = ⟨some (_abs_url base b.href), some (_abs_url base b.href),
                some (anchorTitle b)⟩ := by
  induction anchors with
  | nil =>
    intro cnt it h
    simp [collectAnchors] at h
  | cons a rest ih =>
    intro cnt it h
    simp only [collectAnchors] at h
    by_cases h0 : _abs_url base a.href = ""
    · rw [if_pos h0] at h
      obtain ⟨b, hb, hx⟩ := ih cnt it h
      exact ⟨b, List.mem_cons_of_mem a hb, hx⟩
    · rw [if_neg h0] at h
      by_cases h1 :
          (!incl.isEmpty && !incl.any fun p => p (_abs_url base a.href)) = true
      · rw [if_pos h1] at h
        obtain ⟨b, hb, hx⟩ := ih cnt it h
        exact ⟨b, List.mem_cons_of_mem a hb, hx⟩
      · rw [if_neg h1] at h
        by_cases h2 :
            (!excl.isEmpty && excl.any fun p => p (_abs_url base a.href)) = true
        · rw [if_pos h2] at h
          obtain ⟨b, hb, hx⟩ := ih cnt it h
          exact ⟨b, List.mem_cons_of_mem a hb, hx⟩
        · rw [if_neg h2] at h
          by_cases h3 : maxItems ≤ cnt + 1
          · rw [if_pos h3] at h
            obtain rfl := List.mem_singleton.mp h
            exact ⟨a, List.mem_cons_self a rest, h0, rfl⟩
          · rw [if_neg h3] at h
            rcases List.mem_cons.mp h with rfl | hmem
            · exact ⟨a, List.mem_cons_self a rest, h0, rfl⟩
            · obtain ⟨b, hb, hx⟩ := ih (cnt + 1) it hmem
              exact ⟨b, List.mem_cons_of_mem a hb, hx⟩

/-- C9 (amended). For every raw (href, text) pair processed by the item
normalizer: an href whose stripped form begins with `javascript:` yields no
URL (and hence no item); any other non-empty href is resolved against the
page's base URL by the URL join, and when the base is an absolute http(s)
URL the result is again absolute; every item the list scraper emits stems
from one of the page's anchors, carrying that anchor's resolved URL as key
and url; and the derived title is the anchor text with leading and trailing
whitespace stripped (internal whitespace is preserved, not collapsed; the
image `alt` fallback is used only when the stripped text is empty). -/
theorem normalizer_resolves_urls (base href : String) (a : Anchor)
    (incl excl : List (String → Bool)) (maxItems : Nat)
    (anchors : List Anchor) :
    (strStarts (pyStrip href) "javascript:" = true → _abs_url base href = "")
      ∧ (href ≠ "" → strStarts (pyStrip href) "javascript:" = false →
          _abs_url base href = urljoin base (pyStrip href))
      ∧ (hasHttpScheme base = true → href ≠ "" →
          strStarts (pyStrip href) "javascript:" = false →
          hasHttpScheme (_abs_url base href) = true)
      ∧ (∀ it ∈ scrape_list_page_anchors base incl excl maxItems anchors,
          ∃ b ∈ anchors, _abs_url base b.href ≠ ""
            ∧ it = ⟨some (_abs_url base b.href), some (_abs_url base b.href),
                    some (anchorTitle b)⟩)
      ∧ (pyStrip a.text ≠ "" → anchorTitle a = pyStrip a.text) := by
  refine ⟨?_, ?_, ?_, ?_, ?_⟩
  · intro hjs
    by_cases h0 : href = ""
    · subst h0
      exact absurd hjs (by decide)
    · simp [_abs_url, h0, hjs]
  · intro h0 hjs
    simp [_abs_url, h0, hjs]
  · intro hb h0 hjs
    rw [show _abs_url base href = urljoin base (pyStrip href) from by
      simp [_abs_url, h0, hjs]]
    exact urljoin_keeps_scheme base (pyStrip href) hb
  · intro it hit
    exact collectAnchors_sound base incl excl maxItems anchors 0 it
      ((dedupGo_sublist _ []).subset hit)
  · intro hne
    simp [anchorTitle, hne]

/-- Witness for C9 (amended) at concrete inputs: a `javascript:` href is
rejected, a root-relative href resolves absolutely against the base, and a
padded title is stripped. -/
theorem normalizer_resolves_urls_witness :
    _abs_url "https://x.kr/a/b" "javascript:void(0)" = ""
      ∧ _abs_url "https://x.kr/a/b" "/e/1" = urljoin "https://x.kr/a/b" "/e/1"
      ∧ hasHttpScheme (_abs_url "https://x.kr/a/b" "/e/1") = true
      ∧ anchorTitle ⟨"/e/1", " A B ", none⟩ = pyStrip " A B " :=
  ⟨(normalizer_resolves_urls "https://x.kr/a/b" "javascript:void(0)"
      ⟨"/e/1", " A B ", none⟩ [] [] 0 []).1 (by decide),
   (normalizer_resolves_urls "https://x.kr/a/b" "/e/1"
      ⟨"/e/1", " A B ", none⟩ [] [] 0 []).2.1 (by decide) (by decide),
   (normalizer_resolves_urls "https://x.kr/a/b" "/e/1"
      ⟨"/e/1", " A B ", none⟩ [] [] 0 []).2.2.1 (by decide) (by decide)
      (by decide),
   (normalizer_resolves_urls "https://x.kr/a/b" "/e/1"
      ⟨"/e/1", " A B ", none⟩ [] [] 0 []).2.2.2.2 (by decide)⟩

/-- C9 counterexample to the claim as stated: the derived title text is only
stripped at the ends, not whitespace-collapsed — the anchor text `"A  B"`
keeps its internal double space, while the spec's collapse would produce
`"A B"`. -/
theorem title_whitespace_counterexample :
    anchorTitle ⟨"/e/1", "A  B", none⟩ = "A  B"
      ∧ collapseWs "A  B" = "A B"
      ∧ ("A  B" : String) ≠ "A B"
      ∧ strContains (anchorTitle ⟨"/e/1", "A  B", none⟩) "  " = true := by
  refine ⟨?_, ?_, ?_, ?_⟩ <;> decide

/-! ## The shop.winc.app extractor -/

theorem wincCollect_nil_of_none (pageUrl : String) (anchors : List Anchor)
    (h : ∀ a ∈ anchors, wincLinkKept pageUrl a = false) :
    ∀ seen cnt, wincCollect pageUrl anchors seen cnt = [] := by
  induction anchors with
  | nil => intro seen cnt; rfl
  | cons a rest ih =>
    intro seen cnt
    have ha := h a (List.mem_cons_self a rest)
    have hrest : ∀ b ∈ rest, wincLinkKept pageUrl b = false :=
      fun b hb => h b (List.mem_cons_of_mem a hb)
    simp only [wincCollect]
    unfold wincLinkKept at ha
    dsimp only at ha
    by_cases h0 : _abs_url pageUrl a.href = ""
    · rw [if_pos h0]
      exact ih hrest seen cnt
    · rw [if_neg h0]
      by_cases h1 : _same_host pageUrl (_abs_url pageUrl a.href) = true
      · rw [if_neg (by simp [h1])]
        cases hfn : findNumAfter "/event/".data (_abs_url pageUrl a.href).data with
        | none =>
          exact ih hrest seen cnt
        | some ds =>
          exfalso
          rw [hfn] at ha
          simp [h0, h1] at ha
      · rw [if_pos (by simp [Bool.not_eq_true] at h1; simp [h1])]
        exact ih hrest seen cnt

/-- C10. The shop.winc.app extractor never returns an empty list: whenever
zero same-host links matching the `/event/<id>` pattern are found on the
homepage, it saves a debug artifact and returns exactly one synthetic item
with key `"winc:home"` and the homepage as url. -/
theorem winc_synthetic_home (pageUrl : String) (anchors : List Anchor) :
    (scrape_shop_winc pageUrl anchors).1 ≠ []
      ∧ ((∀ a ∈ anchors, wincLinkKept pageUrl a = false) →
          scrape_shop_winc pageUrl anchors
            = ([⟨some "winc:home", some wincHome, some "이벤트(홈)"⟩], true)) := by
  constructor
  · unfold scrape_shop_winc
    by_cases he :
        (_dedup_keep_order (wincCollect pageUrl anchors [] 0)).isEmpty = true
    · rw [if_pos he]
      exact List.cons_ne_nil _ _
    · rw [if_neg he]
      dsimp only
      intro hnil
      rw [hnil] at he
      exact he rfl
  · intro h
    unfold scrape_shop_winc
    rw [wincCollect_nil_of_none pageUrl anchors h [] 0]
    rfl

/-- Witness for C10 at a concrete page: a homepage with one same-host anchor
that does not match `/event/<id>` yields the synthetic home item plus a
debug artifact. -/
theorem winc_synthetic_home_witness :
    (∀ a ∈ ([⟨"/about", "About", none⟩] : List Anchor),
        wincLinkKept "https://shop.winc.app/" a = false)
      ∧ scrape_shop_winc "https://shop.winc.app/" [⟨"/about", "About", none⟩]
          = ([⟨some "winc:home", some wincHome, some "이벤트(홈)"⟩], true) :=
  ⟨by decide,
   (winc_synthetic_home "https://shop.winc.app/"
      [⟨"/about", "About", none⟩]).2 (by decide)⟩
